import Mathlib

/-!
Verification of the core of binance_trade_bot/binance_stream_manager.py:
a shallow embedding of its data model (BinanceOrder, BinanceCache), the
dispatch loop (_stream_processor / _process_stream_data), the reconciler
(_fetch_pending_orders), and small transition systems for the concurrency
components (OrderGuard registration, ThreadSafeAsyncLock), together with
theorems settling the specified properties.

Python dictionaries are embedded as association lists with unique keys
maintained by an overwrite-on-existing-key insert (dictSet), deletion
(dictDel) and lookup (dictGet).  Python float values are embedded as
rationals; every numeric literal the claims evaluate is exactly
representable, so rational arithmetic agrees with IEEE semantics on them.
-/

/-- Python dict assignment d[k] = v: overwrite the value at an existing key
in place, otherwise append the new binding at the end. -/
def dictSet {κ α : Type} [DecidableEq κ] (k : κ) (v : α) : List (κ × α) → List (κ × α)
  | [] => [(k, v)]
  | (k₀, v₀) :: t => if k₀ = k then (k, v) :: t else (k₀, v₀) :: dictSet k v t

/-- Python dict deletion del d[k]: remove every binding of key k (on the
unique-key lists produced by dictSet this is exactly the one binding). -/
def dictDel {κ α : Type} [DecidableEq κ] (k : κ) (m : List (κ × α)) : List (κ × α) :=
  m.filter (fun p => p.1 ≠ k)

/-- Python dict lookup d[k], returning none when the key is absent. -/
def dictGet {κ α : Type} [DecidableEq κ] (k : κ) : List (κ × α) → Option α
  | [] => none
  | (k₀, v₀) :: t => if k₀ = k then some v₀ else dictGet k t

/-- Value of a decimal digit character, none on a non-digit. -/
def digitVal (c : Char) : Option ℕ :=
  if '0' ≤ c ∧ c ≤ '9' then some (c.toNat - 48) else none

/-- Value of a digit run read most-significant first; the empty run is 0
(emptiness is guarded by the callers). -/
def digitsVal (cs : List Char) : Option ℕ :=
  cs.foldl (fun acc c => do let a ← acc; let d ← digitVal c; pure (a * 10 + d)) (some 0)

/-- Model of the Python float() conversion restricted to plain decimal
literals (optional sign, digits, optional fractional part), the only form
the stream payloads under verification use; none models the ValueError
raised on a malformed literal. -/
def pyFloatOfString (s : String) : Option ℚ :=
  let cs := s.data
  let signed : Bool × List Char :=
    match cs with
    | '-' :: rest => (true, rest)
    | '+' :: rest => (false, rest)
    | _ => (false, cs)
  let magParts : Option (ℕ × ℕ) :=
    match (signed.2).splitOn '.' with
    | [ip] =>
        if ip.isEmpty then none
        else (digitsVal ip).map (fun n => (n, 1))
    | [ip, fp] =>
        if ip.isEmpty && fp.isEmpty then none
        else do
          let i ← digitsVal ip
          let f ← digitsVal fp
          pure (i * 10 ^ fp.length + f, 10 ^ fp.length)
    | _ => none
  magParts.map (fun p => mkRat (if signed.1 then -(p.1 : ℤ) else (p.1 : ℤ)) p.2)

/-- A Python value in a numeric position of a stream payload: either a
string (as delivered by the websocket) or an already-converted float (as
built by the reconciler's fake_report). -/
inductive PyNum : Type where
  | str (s : String)
  | num (r : ℚ)
deriving DecidableEq

/-- Model of float(v): identity on a float, decimal parse on a string. -/
def pyFloat : PyNum → Option ℚ
  | .str s => pyFloatOfString s
  | .num r => some r

/-- Fields of an executionReport payload read by BinanceOrder.__init__
(the source keeps the whole dict in self.event; the embedding keeps the
read fields). -/
structure ExecReport : Type where
  symbol : String
  side : String
  order_type : String
  order_id : ℕ
  cumulative_quote_asset_transacted_quantity : PyNum
  current_order_status : String
  order_price : PyNum
  transaction_time : ℕ
  cumulative_filled_quantity : PyNum
deriving DecidableEq

/-- The common order representation built by BinanceOrder.__init__. -/
structure BinanceOrder : Type where
  symbol : String
  side : String
  order_type : String
  id : ℕ
  cumulative_quote_qty : ℚ
  status : String
  price : ℚ
  time : ℕ
  cumulative_filled_quantity : ℚ
deriving DecidableEq

/-- BinanceOrder.__init__ on a report dict: the three float() conversions
may raise (none); otherwise the attributes are copied or converted. -/
def BinanceOrder.ofReport (r : ExecReport) : Option BinanceOrder := do
  let qq ← pyFloat r.cumulative_quote_asset_transacted_quantity
  let pr ← pyFloat r.order_price
  let fq ← pyFloat r.cumulative_filled_quantity
  pure { symbol := r.symbol
         side := r.side
         order_type := r.order_type
         id := r.order_id
         cumulative_quote_qty := qq
         status := r.current_order_status
         price := pr
         time := r.transaction_time
         cumulative_filled_quantity := fq }

/-- The mutable cache state of BinanceCache: ticker maps, the guarded
balance map, and the order map keyed by exchange order id. -/
structure BinanceCache : Type where
  ticker_values : List (String × ℚ)
  ticker_values_ask : List (String × ℚ)
  ticker_values_bid : List (String × ℚ)
  balances : List (String × ℚ)
  orders : List (ℕ × BinanceOrder)
deriving DecidableEq

/-- The cache as constructed at startup: every map empty. -/
def BinanceCache.empty : BinanceCache :=
  { ticker_values := []
    ticker_values_ask := []
    ticker_values_bid := []
    balances := []
    orders := [] }

/-- A popped stream data item, partitioned by the value of its event_type
key exactly as _process_stream_data dispatches on it: one constructor per
recognized kind carrying the payload fields that branch reads, unknown for
a dict whose event_type is none of the recognized strings, and
missingEventType for a dict with no event_type key at all. -/
inductive StreamData : Type where
  | executionReport (r : ExecReport)
  | balanceUpdate (asset : String)
  | outboundAccountPosition (balances : List (String × PyNum))
  | outboundAccountInfo (balances : List (String × PyNum))
  | miniTicker (data : List (String × PyNum))
  | bookTicker (symbol : String) (best_ask_price best_bid_price : PyNum)
  | unknown (event_type : String)
  | missingEventType
deriving DecidableEq

/-- The event kinds _process_stream_data recognizes by name. -/
def recognizedEventTypes : List String :=
  ["executionReport", "balanceUpdate", "outboundAccountPosition",
   "outboundAccountInfo", "24hrMiniTicker", "bookTicker"]

/-- The value of the event_type key of the dict a StreamData embeds, none
when the key is absent. -/
def StreamData.eventType : StreamData → Option String
  | .executionReport _ => some "executionReport"
  | .balanceUpdate _ => some "balanceUpdate"
  | .outboundAccountPosition _ => some "outboundAccountPosition"
  | .outboundAccountInfo _ => some "outboundAccountInfo"
  | .miniTicker _ => some "24hrMiniTicker"
  | .bookTicker _ _ _ => some "bookTicker"
  | .unknown s => some s
  | .missingEventType => none

/-- One logger call, by level. -/
inductive LogEntry : Type where
  | debug (msg : String)
  | info (msg : String)
  | error (msg : String)
deriving DecidableEq

/-- The snapshot branch of _process_stream_data: write each listed asset's
converted free value into the balance map, in payload order; none models
the ValueError a malformed free string raises mid-loop. -/
def applyBalanceList : List (String × PyNum) → List (String × ℚ) → Option (List (String × ℚ))
  | [], m => some m
  | (a, v) :: t, m =>
    match pyFloat v with
    | some r => applyBalanceList t (dictSet a r m)
    | none => none

/-- The miniTicker branch: write each listed symbol's converted close
price into the ticker map, in payload order. -/
def applyMiniTickerList : List (String × PyNum) → List (String × ℚ) → Option (List (String × ℚ))
  | [], m => some m
  | (s, v) :: t, m =>
    match pyFloat v with
    | some r => applyMiniTickerList t (dictSet s r m)
    | none => none

/-- BinanceStreamManager._process_stream_data: dispatch one data item by
event kind, returning the updated cache and the logger calls made, or the
message of an exception that propagates out (a float() ValueError while
building an order or converting a payload value). -/
def processStreamData (c : BinanceCache) : StreamData → Except String (BinanceCache × List LogEntry)
  | .executionReport r =>
    match BinanceOrder.ofReport r with
    | some o => .ok ({ c with orders := dictSet o.id o c.orders },
        [.debug "execution report"])
    | none => .error "ValueError in BinanceOrder"
  | .balanceUpdate asset =>
    .ok ({ c with balances := if (dictGet asset c.balances).isSome
                              then dictDel asset c.balances
                              else c.balances },
        [.debug "Balance update"])
  | .outboundAccountPosition bs =>
    match applyBalanceList bs c.balances with
    | some m => .ok ({ c with balances := m }, [.debug "outboundAccountPosition"])
    | none => .error "ValueError in balances"
  | .outboundAccountInfo bs =>
    match applyBalanceList bs c.balances with
    | some m => .ok ({ c with balances := m }, [.debug "outboundAccountInfo"])
    | none => .error "ValueError in balances"
  | .miniTicker ds =>
    match applyMiniTickerList ds c.ticker_values with
    | some m => .ok ({ c with ticker_values := m }, [])
    | none => .error "ValueError in miniTicker"
  | .bookTicker sym ask bid =>
    match pyFloat ask, pyFloat bid with
    | some a, some b =>
      .ok ({ c with ticker_values_ask := dictSet sym a c.ticker_values_ask
                    ticker_values_bid := dictSet sym b c.ticker_values_bid }, [])
    | _, _ => .error "ValueError in bookTicker"
  | .unknown s =>
    .ok (c, [.error ("Unknown event type found: " ++ s)])
  | .missingEventType =>
    .error "KeyError: event_type"

/-- A popped stream signal: its type string and stream id. -/
structure StreamSignal : Type where
  signal_type : String
  stream_id : ℕ
deriving DecidableEq

/-- The observable outcome of one iteration of _stream_processor: the
cache afterwards, the logger calls, whether the idle sleep was taken,
whether the loop terminated the process (sys.exit on a stopping manager),
and the message of an exception propagating out of the iteration. -/
structure StepResult : Type where
  cache : BinanceCache
  logs : List LogEntry
  slept : Bool
  exited : Bool
  raised : Option String
deriving DecidableEq

/-- One iteration of BinanceStreamManager._stream_processor.  The popped
signal and data item arrive as parameters (none embeds the False returned
by an empty buffer); recon is the reconciliation action invoked on a
CONNECT signal of the user-data stream (the source calls
_fetch_pending_orders there, modelled separately), and streamInfo gives
get_stream_info(stream_id)["markets"].  After recon the balance map is
cleared (_invalidate_balances).  A data item is dispatched only when its
dict contains the event_type key; the idle sleep happens exactly when
both pops returned nothing. -/
def streamProcessorStep (recon : BinanceCache → BinanceCache × List LogEntry)
    (streamInfo : ℕ → List String) (stopping : Bool)
    (sig : Option StreamSignal) (dataItem : Option StreamData)
    (c : BinanceCache) : StepResult :=
  if stopping then
    { cache := c, logs := [], slept := false, exited := true, raised := none }
  else
    let afterSignal : BinanceCache × List LogEntry :=
      match sig with
      | some sg =>
        if sg.signal_type = "CONNECT" && decide ("!userData" ∈ streamInfo sg.stream_id) then
          let fetched := recon c
          ({ fetched.1 with balances := [] },
           .debug "Connect for userdata arrived" :: fetched.2)
        else (c, [])
      | none => (c, [])
    match dataItem with
    | some d =>
      if d.eventType.isSome then
        match processStreamData afterSignal.1 d with
        | .ok r =>
          { cache := r.1, logs := afterSignal.2 ++ r.2, slept := false,
            exited := false, raised := none }
        | .error e =>
          { cache := afterSignal.1, logs := afterSignal.2, slept := false,
            exited := false, raised := some e }
      else
        { cache := afterSignal.1, logs := afterSignal.2, slept := false,
          exited := false, raised := none }
    | none =>
      { cache := afterSignal.1, logs := afterSignal.2,
        slept := sig.isNone, exited := false, raised := none }

/-- Fields of a REST get_order response read by _fetch_pending_orders. -/
structure OrderSnapshot : Type where
  symbol : String
  side : String
  order_type : String
  orderId : ℕ
  cummulativeQuoteQty : PyNum
  executedQty : PyNum
  status : String
  price : PyNum
  time : ℕ
deriving DecidableEq

/-- The fake_report dict built from a REST response: four fields copied,
three converted with float() (none models a ValueError), numeric fields
stored as floats so the later BinanceOrder conversion is the identity. -/
def fakeReportOfSnapshot (o : OrderSnapshot) : Option ExecReport := do
  let qq ← pyFloat o.cummulativeQuoteQty
  let eq ← pyFloat o.executedQty
  let pr ← pyFloat o.price
  pure { symbol := o.symbol
         side := o.side
         order_type := o.order_type
         order_id := o.orderId
         cumulative_quote_asset_transacted_quantity := .num qq
         current_order_status := o.status
         order_price := .num pr
         transaction_time := o.time
         cumulative_filled_quantity := .num eq }

/-- The retry loop of _fetch_pending_orders for one pending tag: attempt
get_order, on a transient failure (oracle returns none) sleep one second
and retry forever.  The oracle maps the attempt index to the response;
fuel bounds the unrolling (the theorems hold for every sufficient fuel);
the result carries the successful response, the attempt index at which it
arrived, and the trace of sleep durations taken so far. -/
def fetchOrderRetry (oracle : ℕ → Option OrderSnapshot) :
    ℕ → ℕ → List ℚ → Option (OrderSnapshot × ℕ × List ℚ)
  | 0, _, _ => none
  | fuel + 1, k, tr =>
    match oracle k with
    | some o => some (o, k, tr)
    | none => fetchOrderRetry oracle fuel (k + 1) (tr ++ [1])

/-- Processing of one pending tag by _fetch_pending_orders: run the retry
loop, translate the response through fake_report and BinanceOrder, and
upsert the order into the cache under the response's order id.  The outer
none is exhausted fuel (the loop still running); an inner error is the
exception a malformed response raises; on success the result also
reports the number of attempts issued and the sleep trace. -/
def processPendingOrder (oracle : ℕ → Option OrderSnapshot) (fuel : ℕ)
    (c : BinanceCache) : Option (Except String (BinanceCache × ℕ × List ℚ)) :=
  match fetchOrderRetry oracle fuel 0 [] with
  | none => none
  | some (snap, k, tr) =>
    match fakeReportOfSnapshot snap with
    | none => some (.error "ValueError in fake_report")
    | some rep =>
      match BinanceOrder.ofReport rep with
      | none => some (.error "ValueError in BinanceOrder")
      | some o =>
        some (.ok ({ c with orders := dictSet o.id o c.orders }, k + 1, tr))

/-- A balance event as the claims quantify over it: a snapshot listing
assets with their fresh free values, or a delta naming one asset.  Free
values are carried as already-converted floats. -/
inductive BalEvent : Type where
  | snapshot (entries : List (String × ℚ))
  | delta (asset : String)
deriving DecidableEq

/-- The stream data item a balance event embeds as. -/
def BalEvent.toStreamData : BalEvent → StreamData
  | .snapshot es => .outboundAccountPosition (es.map (fun p => (p.1, .num p.2)))
  | .delta a => .balanceUpdate a

/-- The cache after the dispatch loop processes one balance event (its
float conversions always succeed, so the error branch is unreachable and
mapped to the identity). -/
def processBalEvent (c : BinanceCache) (e : BalEvent) : BinanceCache :=
  match processStreamData c e.toStreamData with
  | .ok r => r.1
  | .error _ => c

/-- The cache after the dispatch loop processes a finite sequence of
balance events in order. -/
def processBalEvents (c : BinanceCache) : List BalEvent → BinanceCache
  | [] => c
  | e :: t => processBalEvents (processBalEvent c e) t

/-- The value a snapshot entry list assigns to an asset: that of its last
entry for the asset, none when the asset is unlisted. -/
def snapValue (a : String) : List (String × ℚ) → Option ℚ
  | [] => none
  | (b, v) :: t =>
    match snapValue a t with
    | some w => some w
    | none => if b = a then some v else none

/-- What the last event of a sequence mentioning an asset says about it:
none when no event mentions the asset, some none when it is a delta,
some (some v) when it is a snapshot listing the asset with value v. -/
def lastMention (a : String) : List BalEvent → Option (Option ℚ)
  | [] => none
  | e :: t =>
    match lastMention a t with
    | some x => some x
    | none =>
      match e with
      | .snapshot es => (snapValue a es).map some
      | .delta b => if b = a then some none else none

theorem dictGet_dictSet {κ α : Type} [DecidableEq κ] (k a : κ) (v : α) (m : List (κ × α)) :
    dictGet a (dictSet k v m) = if k = a then some v else dictGet a m := by
  induction m with
  | nil => by_cases h : k = a <;> simp [dictSet, dictGet, h]
  | cons p t ih =>
    obtain ⟨k₀, v₀⟩ := p
    by_cases h₀ : k₀ = k
    · subst h₀
      by_cases h₁ : k₀ = a <;> simp [dictSet, dictGet, h₁]
    · by_cases h₁ : k₀ = a
      · subst h₁
        have hk : ¬ k = k₀ := fun h => h₀ h.symm
        simp [dictSet, dictGet, h₀, hk]
      · simp [dictSet, dictGet, h₀, h₁, ih]

theorem dictGet_dictDel {κ α : Type} [DecidableEq κ] (k a : κ) (m : List (κ × α)) :
    dictGet a (dictDel k m) = if k = a then none else dictGet a m := by
  induction m with
  | nil => by_cases h : k = a <;> simp [dictDel, dictGet, h]
  | cons p t ih =>
    obtain ⟨k₀, v₀⟩ := p
    by_cases h₀ : k₀ = k
    · subst h₀
      by_cases h₁ : k₀ = a <;>
        simp [dictDel, List.filter_cons, dictGet, h₁, dictDel] at ih ⊢ <;>
        simp [ih, h₁]
    · by_cases h₁ : k₀ = a
      · subst h₁
        have hk : ¬ k = k₀ := fun h => h₀ h.symm
        simp [dictDel, List.filter_cons, dictGet, h₀, hk] at ih ⊢
      · simp [dictDel, List.filter_cons, dictGet, h₀, h₁] at ih ⊢
        simp [dictGet, h₁, ih]

/-- The balance map after the snapshot loop writes every entry in order
(the pure image of applyBalanceList on already-converted values). -/
def snapApply (es : List (String × ℚ)) (m : List (String × ℚ)) : List (String × ℚ) :=
  es.foldl (fun acc p => dictSet p.1 p.2 acc) m

theorem applyBalanceList_num (es : List (String × ℚ)) (m : List (String × ℚ)) :
    applyBalanceList (es.map (fun p => (p.1, PyNum.num p.2))) m = some (snapApply es m) := by
  induction es generalizing m with
  | nil => simp [applyBalanceList, snapApply]
  | cons p t ih =>
    obtain ⟨a, v⟩ := p
    simp only [List.map_cons, applyBalanceList, pyFloat]
    exact ih (dictSet a v m)

theorem dictGet_snapApply (a : String) (es : List (String × ℚ)) (m : List (String × ℚ)) :
    dictGet a (snapApply es m) =
      match snapValue a es with
      | some v => some v
      | none => dictGet a m := by
  induction es generalizing m with
  | nil => simp [snapApply, snapValue]
  | cons p t ih =>
    obtain ⟨b, v⟩ := p
    have step : snapApply ((b, v) :: t) m = snapApply t (dictSet b v m) := rfl
    rw [step, ih]
    cases hsv : snapValue a t with
    | some w => simp [snapValue, hsv]
    | none =>
      by_cases hb : b = a <;>
        simp [snapValue, hsv, hb, dictGet_dictSet]

theorem processBalEvent_snapshot (c : BinanceCache) (es : List (String × ℚ)) :
    processBalEvent c (.snapshot es) = { c with balances := snapApply es c.balances } := by
  simp [processBalEvent, BalEvent.toStreamData, processStreamData, applyBalanceList_num]

theorem processBalEvent_delta (c : BinanceCache) (a x : String) :
    dictGet x (processBalEvent c (.delta a)).balances =
      if a = x then none else dictGet x c.balances := by
  simp only [processBalEvent, BalEvent.toStreamData, processStreamData]
  by_cases h : (dictGet a c.balances).isSome
  · simp [h, dictGet_dictDel]
  · simp at h
    by_cases hx : a = x
    · subst hx; simp [h]
    · simp [h, hx]

/-- What the amended claim says the final lookup of an asset is. -/
def lastMentionValue (a : String) (evs : List BalEvent) (c : BinanceCache) : Option ℚ :=
  match lastMention a evs with
  | none => dictGet a c.balances
  | some none => none
  | some (some v) => some v

theorem lastMention_cons (a : String) (e : BalEvent) (t : List BalEvent) :
    lastMention a (e :: t) =
      match lastMention a t with
      | some x => some x
      | none =>
        match e with
        | .snapshot es => (snapValue a es).map some
        | .delta b => if b = a then some none else none := rfl

/-- Per-asset effect of a single balance event on the final lookup. -/
theorem processBalEvent_lookup (c : BinanceCache) (e : BalEvent) (a : String) :
    dictGet a (processBalEvent c e).balances =
      match (match e with
             | BalEvent.snapshot es => (snapValue a es).map some
             | BalEvent.delta b => if b = a then some none else none) with
      | none => dictGet a c.balances
      | some none => none
      | some (some v) => some v := by
  cases e with
  | snapshot es =>
    rw [processBalEvent_snapshot]
    simp only []
    rw [dictGet_snapApply]
    cases hsv : snapValue a es <;> simp [hsv]
  | delta b =>
    rw [processBalEvent_delta]
    by_cases hb : b = a <;> simp [hb]

theorem processBalEvents_lookup (evs : List BalEvent) (c : BinanceCache) (a : String) :
    dictGet a (processBalEvents c evs).balances = lastMentionValue a evs c := by
  induction evs generalizing c with
  | nil => rfl
  | cons e t ih =>
    have h1 : processBalEvents c (e :: t) = processBalEvents (processBalEvent c e) t := rfl
    rw [h1, ih]
    unfold lastMentionValue
    rw [lastMention_cons]
    cases hlt : lastMention a t with
    | some x => cases x <;> simp
    | none =>
      simp only []
      rw [processBalEvent_lookup]

/-- Formalization of claim C3 exactly as the spec states it, for
comparison with the code: the entries of the last snapshot event of the
sequence and the events after it. -/
def lastSnapshotSplit : List BalEvent → Option (List (String × ℚ) × List BalEvent)
  | [] => none
  | e :: t =>
    match lastSnapshotSplit t with
    | some r => some r
    | none =>
      match e with
      | .snapshot es => some (es, t)
      | .delta _ => none

/-- Whether a balance event is a delta naming the given asset. -/
def namesDelta (a : String) : BalEvent → Bool
  | .delta b => b = a
  | .snapshot _ => false

/-- Modelled from the spec words of claim C3: the final cache is the set
of assets listed by the last snapshot, each with that snapshot's free
value, minus any assets named by delta events arriving after it. -/
def claimC3Final (evs : List BalEvent) (a : String) : Option ℚ :=
  match lastSnapshotSplit evs with
  | none => none
  | some (es, suffix) =>
    if suffix.any (namesDelta a) then none else snapValue a es

/-- Claim C3 as stated, as a proposition about the code: for every finite
sequence of balance events processed by the dispatch loop from the
startup cache, the final balance cache state equals the last snapshot's
listed assets with its values minus later-deleted assets. -/
def claimC3Statement : Prop :=
  ∀ (evs : List BalEvent) (a : String),
    dictGet a (processBalEvents BinanceCache.empty evs).balances = claimC3Final evs a

/-- C3 counterexample: the claim as stated is false on the code.  On the
sequence snapshot listing only A, then snapshot listing only B, the code
keeps A (a snapshot overwrites the assets it lists and leaves other keys
untouched), while the claim predicts a cache holding only B. -/
theorem c3_counterexample : ¬ claimC3Statement := fun h =>
  absurd (h [.snapshot [("A", 1)], .snapshot [("B", 2)]] "A") (by decide)

/-- C3 (amended): for every finite sequence of balance events processed by
the dispatch loop, each asset's final cached value is decided by the last
event mentioning it — the value given by the last snapshot listing it,
none when a delta naming it comes later, and the prior cached value when
no event mentions it (a snapshot overwrites the assets it lists and
leaves all other keys untouched); a delta event never adds a key and only
removes the named asset, and a delta naming an absent asset leaves the
cache unchanged. -/
theorem c3_balance_event_folding :
    (∀ (c : BinanceCache) (evs : List BalEvent) (a : String),
      dictGet a (processBalEvents c evs).balances = lastMentionValue a evs c) ∧
    (∀ (c : BinanceCache) (a x : String),
      dictGet x (processBalEvent c (.delta a)).balances
        = if a = x then none else dictGet x c.balances) ∧
    (∀ (c : BinanceCache) (a : String),
      dictGet a c.balances = none → processBalEvent c (.delta a) = c) := by
  refine ⟨fun c evs a => processBalEvents_lookup evs c a,
          fun c a x => processBalEvent_delta c a x,
          fun c a h => ?_⟩
  simp [processBalEvent, BalEvent.toStreamData, processStreamData, h]

/-- Witness for C3 (amended) at the spec scenario: snapshot listing USDT
at 100.5 then a delta naming USDT leaves no USDT key, and a delta naming
an asset absent from the startup cache changes nothing. -/
theorem c3_balance_event_folding_witness :
    dictGet "USDT" (processBalEvents BinanceCache.empty
        [.snapshot [("USDT", mkRat 201 2)], .delta "USDT"]).balances = none ∧
    processBalEvent BinanceCache.empty (.delta "BTC") = BinanceCache.empty := by
  constructor
  · rw [c3_balance_event_folding.1]; decide
  · exact c3_balance_event_folding.2.2 BinanceCache.empty "BTC" (by decide)

/-- The per-guard state of an OrderGuard: the tag to publish, none until
set_order is called (the pending set and the submission mutex are shared
and passed to the operations explicitly). -/
structure OrderGuard : Type where
  tag : Option (String × ℕ)
deriving DecidableEq

/-- OrderGuard.__init__ as far as the guard's own state goes: the tag
starts unset (the constructor also acquires the submission mutex, which
the registration transition system models). -/
def OrderGuard.new : OrderGuard := { tag := none }

/-- OrderGuard.set_order: record the (origin+target symbol, order id) tag. -/
def OrderGuard.set_order (g : OrderGuard) (origin_symbol target_symbol : String)
    (order_id : ℕ) : OrderGuard :=
  { g with tag := some (origin_symbol ++ target_symbol, order_id) }

/-- Outcome of OrderGuard.__enter__: the exception message if one was
raised, the pending set afterwards, and whether the submission mutex was
released by the time control left the method. -/
structure EnterOutcome : Type where
  raised : Option String
  pending : Finset (String × ℕ)
  mutexReleased : Bool
deriving DecidableEq

/-- OrderGuard.__enter__: raise when the tag was never set, otherwise add
the tag to the shared pending set; the finally clause releases the
submission mutex on both paths. -/
def OrderGuard.enter (g : OrderGuard) (pending : Finset (String × ℕ)) : EnterOutcome :=
  match g.tag with
  | none =>
    { raised := some "OrderGuard wasn't properly set"
      pending := pending
      mutexReleased := true }
  | some t =>
    { raised := none
      pending := insert t pending
      mutexReleased := true }

/-- C6: entering the scope of an OrderGuard on which set_order was never
called raises the programming-error exception and adds no tag to the
pending set. -/
theorem c6_enter_without_set_order_raises (g : OrderGuard)
    (pending : Finset (String × ℕ)) (h : g.tag = none) :
    (g.enter pending).raised = some "OrderGuard wasn't properly set" ∧
    (g.enter pending).pending = pending := by
  simp [OrderGuard.enter, h]

/-- Witness for C6: a freshly constructed guard entered immediately. -/
theorem c6_enter_without_set_order_raises_witness :
    (OrderGuard.new.enter {("BTCUSDT", 1)}).raised = some "OrderGuard wasn't properly set" ∧
    (OrderGuard.new.enter {("BTCUSDT", 1)}).pending = {("BTCUSDT", 1)} :=
  c6_enter_without_set_order_raises OrderGuard.new {("BTCUSDT", 1)} rfl

/-- C9: when scope entry fails because set_order was never called, the
submission mutex is still released before the exception propagates (the
release sits in a finally clause), and the pending set is unchanged. -/
theorem c9_failed_enter_releases_mutex (g : OrderGuard)
    (pending : Finset (String × ℕ)) (h : g.tag = none) :
    (g.enter pending).raised.isSome = true ∧
    (g.enter pending).mutexReleased = true ∧
    (g.enter pending).pending = pending := by
  simp [OrderGuard.enter, h]

/-- Witness for C9: the failed entry of a fresh guard releases the mutex. -/
theorem c9_failed_enter_releases_mutex_witness :
    (OrderGuard.new.enter ∅).raised.isSome = true ∧
    (OrderGuard.new.enter ∅).mutexReleased = true ∧
    (OrderGuard.new.enter ∅).pending = ∅ :=
  c9_failed_enter_releases_mutex OrderGuard.new ∅ rfl

/-- C4: processing the execution report with symbol BTCUSDT, side BUY,
order id 42, status FILLED, price 30000, filled quantity 0.01, quote
quantity 300, transaction time 1000 puts an entry under key 42 into the
order cache whose status is FILLED and whose price is 30000.0 (for any
starting cache and any order_type field value). -/
theorem c4_execution_report_scenario (c : BinanceCache) (ot : String) :
    ∃ (c' : BinanceCache) (logs : List LogEntry),
      processStreamData c (.executionReport
        { symbol := "BTCUSDT"
          side := "BUY"
          order_type := ot
          order_id := 42
          cumulative_quote_asset_transacted_quantity := .str "300"
          current_order_status := "FILLED"
          order_price := .str "30000"
          transaction_time := 1000
          cumulative_filled_quantity := .str "0.01" }) = .ok (c', logs) ∧
      ∃ o : BinanceOrder, dictGet 42 c'.orders = some o ∧
        o.status = "FILLED" ∧ o.price = 30000 := by
  have h1 : pyFloatOfString "300" = some 300 := by decide
  have h2 : pyFloatOfString "30000" = some 30000 := by decide
  have h3 : pyFloatOfString "0.01" = some (mkRat 1 100) := by decide
  have hrep : BinanceOrder.ofReport
      { symbol := "BTCUSDT"
        side := "BUY"
        order_type := ot
        order_id := 42
        cumulative_quote_asset_transacted_quantity := .str "300"
        current_order_status := "FILLED"
        order_price := .str "30000"
        transaction_time := 1000
        cumulative_filled_quantity := .str "0.01" } =
      some { symbol := "BTCUSDT"
             side := "BUY"
             order_type := ot
             id := 42
             cumulative_quote_qty := 300
             status := "FILLED"
             price := 30000
             time := 1000
             cumulative_filled_quantity := mkRat 1 100 } := by
    simp [BinanceOrder.ofReport, pyFloat, h1, h2, h3]
  refine ⟨{ c with
              orders := dictSet 42
                          (⟨"BTCUSDT", "BUY", ot, 42, 300, "FILLED", 30000,
                            1000, mkRat 1 100⟩ : BinanceOrder)
                          c.orders },
    [.debug "execution report"], ?_, ?_⟩
  · simp only [processStreamData, hrep]
  · refine ⟨⟨"BTCUSDT", "BUY", ot, 42, 300, "FILLED", 30000, 1000, mkRat 1 100⟩,
      ?_, rfl, rfl⟩
    rw [dictGet_dictSet]
    simp

/-- C7: a data item whose event kind is none of the recognized kinds is
handled by the error branch: an error is logged, nothing is raised, every
cache is left unchanged, the loop neither exits nor sleeps that
iteration. -/
theorem c7_unknown_event_logged_and_dropped
    (recon : BinanceCache → BinanceCache × List LogEntry)
    (streamInfo : ℕ → List String) (c : BinanceCache) (s : String)
    (_h : s ∉ recognizedEventTypes) :
    streamProcessorStep recon streamInfo false none (some (.unknown s)) c =
      { cache := c
        logs := [.error ("Unknown event type found: " ++ s)]
        slept := false
        exited := false
        raised := none } := by
  simp [streamProcessorStep, StreamData.eventType, processStreamData]

/-- Witness for C7 at a concrete unrecognized kind. -/
theorem c7_unknown_event_logged_and_dropped_witness :
    streamProcessorStep (fun c => (c, [])) (fun _ => []) false none
        (some (.unknown "trade")) BinanceCache.empty =
      { cache := BinanceCache.empty
        logs := [.error ("Unknown event type found: " ++ "trade")]
        slept := false
        exited := false
        raised := none } :=
  c7_unknown_event_logged_and_dropped (fun c => (c, [])) (fun _ => [])
    BinanceCache.empty "trade" (by decide)

/-- C10: a popped data item with no event_type key at all is dropped
silently: no dispatch, no log of any level, no cache mutation, and,
because a data item was present, no idle sleep either. -/
theorem c10_missing_event_type_dropped_silently
    (recon : BinanceCache → BinanceCache × List LogEntry)
    (streamInfo : ℕ → List String) (c : BinanceCache) :
    streamProcessorStep recon streamInfo false none (some .missingEventType) c =
      { cache := c
        logs := []
        slept := false
        exited := false
        raised := none } := by
  simp [streamProcessorStep, StreamData.eventType]

/-- C8: no operation of the core removes an entry from the order cache:
a dispatched data item either leaves the order map unchanged or upserts
one order under its id, hence every cached key stays cached, and a
completed reconciliation fetch likewise only upserts the fetched order
under its id. -/
theorem c8_order_cache_never_shrinks :
    (∀ (c : BinanceCache) (d : StreamData) (c' : BinanceCache) (logs : List LogEntry),
      processStreamData c d = .ok (c', logs) →
        c'.orders = c.orders ∨ ∃ o : BinanceOrder, c'.orders = dictSet o.id o c.orders) ∧
    (∀ (c : BinanceCache) (d : StreamData) (c' : BinanceCache) (logs : List LogEntry)
        (k : ℕ) (v : BinanceOrder),
      processStreamData c d = .ok (c', logs) → dictGet k c.orders = some v →
        ∃ v' : BinanceOrder, dictGet k c'.orders = some v') ∧
    (∀ (oracle : ℕ → Option OrderSnapshot) (fuel : ℕ) (c c' : BinanceCache)
        (att : ℕ) (tr : List ℚ),
      processPendingOrder oracle fuel c = some (.ok (c', att, tr)) →
        ∃ o : BinanceOrder, c'.orders = dictSet o.id o c.orders) := by
  have main : ∀ (c : BinanceCache) (d : StreamData) (c' : BinanceCache) (logs : List LogEntry),
      processStreamData c d = .ok (c', logs) →
        c'.orders = c.orders ∨ ∃ o : BinanceOrder, c'.orders = dictSet o.id o c.orders := by
    intro c d c' logs h
    cases d <;> simp only [processStreamData] at h <;> try (split at h)
    all_goals try cases h
    all_goals try (left; rfl)
    all_goals (right; exact ⟨_, rfl⟩)
  have recon : ∀ (oracle : ℕ → Option OrderSnapshot) (fuel : ℕ) (c c' : BinanceCache)
      (att : ℕ) (tr : List ℚ),
      processPendingOrder oracle fuel c = some (.ok (c', att, tr)) →
        ∃ o : BinanceOrder, c'.orders = dictSet o.id o c.orders := by
    intro oracle fuel c c' att tr h
    unfold processPendingOrder at h
    split at h
    · cases h
    · split at h
      · cases h
      · split at h
        · cases h
        · injection h with h1
          injection h1 with h2
          injection h2 with h3 _
          exact ⟨_, by rw [← h3]⟩
  refine ⟨main, fun c d c' logs k v h hv => ?_, recon⟩
  rcases main c d c' logs h with he | ⟨o, ho⟩
  · exact ⟨v, by rw [he, hv]⟩
  · rw [ho, dictGet_dictSet]
    by_cases hk : o.id = k
    · exact ⟨o, by simp [hk]⟩
    · exact ⟨v, by simp [hk, hv]⟩

/-- Witness for C8: a balance delta leaves a cached order in place, per
the no-deletion conjunct applied at a concrete cache and event. -/
theorem c8_order_cache_never_shrinks_witness :
    ∃ v' : BinanceOrder,
      dictGet 7 ({ BinanceCache.empty with
        orders := [(7, ⟨"BTCUSDT", "BUY", "LIMIT", 7, 0, "NEW", 0, 0, 0⟩)] } : BinanceCache).orders
        = some v' :=
  c8_order_cache_never_shrinks.2.1
    { BinanceCache.empty with
        orders := [(7, ⟨"BTCUSDT", "BUY", "LIMIT", 7, 0, "NEW", 0, 0, 0⟩)] }
    (.balanceUpdate "X")
    { BinanceCache.empty with
        orders := [(7, ⟨"BTCUSDT", "BUY", "LIMIT", 7, 0, "NEW", 0, 0, 0⟩)] }
    [.debug "Balance update"] 7 ⟨"BTCUSDT", "BUY", "LIMIT", 7, 0, "NEW", 0, 0, 0⟩
    rfl rfl

theorem fetchOrderRetry_succeeds (oracle : ℕ → Option OrderSnapshot) (N : ℕ)
    (snap : OrderSnapshot) (hfail : ∀ i, i < N → oracle i = none)
    (hsucc : oracle N = some snap) :
    ∀ (fuel j : ℕ) (tr : List ℚ), j ≤ N → N - j < fuel →
      fetchOrderRetry oracle fuel j tr =
        some (snap, N, tr ++ List.replicate (N - j) 1) := by
  intro fuel
  induction fuel with
  | zero => intro j tr _ h; omega
  | succ fuel ih =>
    intro j tr hj hfuel
    by_cases hjN : j = N
    · subst hjN
      simp [fetchOrderRetry, hsucc]
    · have hlt : j < N := lt_of_le_of_ne hj hjN
      have hnone : oracle j = none := hfail j hlt
      have hrec := ih (j + 1) (tr ++ [1]) (by omega) (by omega)
      rw [show fetchOrderRetry oracle (fuel + 1) j tr =
            fetchOrderRetry oracle fuel (j + 1) (tr ++ [1]) by
          simp [fetchOrderRetry, hnone]]
      rw [hrec]
      have harr : (tr ++ [1]) ++ List.replicate (N - (j + 1)) (1 : ℚ) =
          tr ++ List.replicate (N - j) (1 : ℚ) := by
        rw [List.append_assoc]
        congr 1
        rw [show N - j = (N - (j + 1)) + 1 by omega]
        rw [List.replicate_succ]
        rfl
      rw [harr]

/-- C5: for a pending tag whose status query fails N times and then
succeeds, the reconciler issues exactly N + 1 attempts (the success comes
at attempt index N, counting from zero), sleeps the fixed one-second
interval exactly N times with no backoff growth, works for every
sufficiently large unrolling bound (there is no attempt limit), and
upserts the translated order into the order cache under its id. -/
theorem c5_reconciler_retries_then_upserts (oracle : ℕ → Option OrderSnapshot)
    (N : ℕ) (snap : OrderSnapshot) (fuel : ℕ) (c : BinanceCache)
    (rep : ExecReport) (o : BinanceOrder)
    (hfail : ∀ i, i < N → oracle i = none) (hsucc : oracle N = some snap)
    (hfuel : N < fuel) (hrep : fakeReportOfSnapshot snap = some rep)
    (ho : BinanceOrder.ofReport rep = some o) :
    processPendingOrder oracle fuel c =
      some (.ok ({ c with orders := dictSet o.id o c.orders }, N + 1,
        List.replicate N 1)) := by
  have hretry := fetchOrderRetry_succeeds oracle N snap hfail hsucc fuel 0 []
    (Nat.zero_le N) (by omega)
  simp only [Nat.sub_zero, List.nil_append] at hretry
  unfold processPendingOrder
  rw [hretry]
  simp [hrep, ho]

/-- Witness for C5: an oracle failing twice then answering; three
attempts, two unit sleeps, order 99 upserted. -/
theorem c5_reconciler_retries_then_upserts_witness :
    processPendingOrder
        (fun i => if i < 2 then none
                  else some ⟨"BTCUSDT", "BUY", "LIMIT", 99, .num 300, .num 1,
                             "FILLED", .num 30000, 1000⟩)
        5 BinanceCache.empty =
      some (.ok ({ BinanceCache.empty with
          orders := dictSet 99
            (⟨"BTCUSDT", "BUY", "LIMIT", 99, 300, "FILLED", 30000, 1000, 1⟩ : BinanceOrder)
            [] }, 3, List.replicate 2 1)) :=
  c5_reconciler_retries_then_upserts
    (fun i => if i < 2 then none
              else some ⟨"BTCUSDT", "BUY", "LIMIT", 99, .num 300, .num 1,
                         "FILLED", .num 30000, 1000⟩)
    2
    ⟨"BTCUSDT", "BUY", "LIMIT", 99, .num 300, .num 1, "FILLED", .num 30000, 1000⟩
    5 BinanceCache.empty
    ⟨"BTCUSDT", "BUY", "LIMIT", 99, .num 300, "FILLED", .num 30000, 1000, .num 1⟩
    ⟨"BTCUSDT", "BUY", "LIMIT", 99, 300, "FILLED", 30000, 1000, 1⟩
    (fun i hi => by
      interval_cases i <;> rfl)
    rfl (by omega) rfl rfl

/-- Phase of one caller in the OrderGuard registration protocol: idle,
holding a constructed guard (tag as set so far), inside the guard scope,
failed at scope entry, or done. -/
inductive GuardPhase : Type where
  | idle
  | created (tag : Option (String × ℕ))
  | inScope (tag : String × ℕ)
  | failed
  | finished
deriving DecidableEq

/-- Whether a phase is the registration window: between OrderGuard
construction (submission mutex acquired) and scope entry. -/
def registering : GuardPhase → Bool
  | .created _ => true
  | _ => false

/-- Global state of the registration protocol for n callers: who holds
the submission mutex, the shared pending-order tag set, and each
caller's phase. -/
structure GuardSysState (n : ℕ) : Type where
  lockHolder : Option (Fin n)
  pending : Finset (String × ℕ)
  phase : Fin n → GuardPhase

/-- Transitions of the registration protocol, one per line of OrderGuard
and acquire_order_guard: create acquires the mutex inside __init__ (so it
blocks until the mutex is free); set_order records the tag; entering the
scope adds the tag to the pending set and releases the mutex, or releases
the mutex and raises when the tag was never set; exiting the scope
removes the tag. -/
inductive GuardStep (n : ℕ) : GuardSysState n → GuardSysState n → Prop where
  | create (s : GuardSysState n) (i : Fin n)
      (hidle : s.phase i = .idle) (hfree : s.lockHolder = none) :
      GuardStep n s
        { lockHolder := some i
          pending := s.pending
          phase := Function.update s.phase i (.created none) }
  | setOrder (s : GuardSysState n) (i : Fin n) (t₀ : Option (String × ℕ))
      (origin target : String) (oid : ℕ)
      (hcreated : s.phase i = .created t₀) :
      GuardStep n s
        { s with
          phase := Function.update s.phase i
            (.created (some (origin ++ target, oid))) }
  | enterOk (s : GuardSysState n) (i : Fin n) (t : String × ℕ)
      (hcreated : s.phase i = .created (some t)) :
      GuardStep n s
        { lockHolder := none
          pending := insert t s.pending
          phase := Function.update s.phase i (.inScope t) }
  | enterFail (s : GuardSysState n) (i : Fin n)
      (hcreated : s.phase i = .created none) :
      GuardStep n s
        { lockHolder := none
          pending := s.pending
          phase := Function.update s.phase i .failed }
  | exitScope (s : GuardSysState n) (i : Fin n) (t : String × ℕ)
      (hin : s.phase i = .inScope t) :
      GuardStep n s
        { s with
          pending := s.pending.erase t
          phase := Function.update s.phase i .finished }

/-- States reachable from startup (mutex free, empty pending set, all
callers idle) by registration-protocol transitions. -/
inductive GuardReachable (n : ℕ) : GuardSysState n → Prop where
  | init : GuardReachable n { lockHolder := none, pending := ∅, phase := fun _ => .idle }
  | step {s s' : GuardSysState n} (h : GuardReachable n s)
      (hs : GuardStep n s s') : GuardReachable n s'

/-- The registration invariant: every caller inside the registration
window holds the submission mutex, and every pending tag belongs to some
caller currently inside its scope. -/
def GuardInv {n : ℕ} (s : GuardSysState n) : Prop :=
  (∀ i : Fin n, registering (s.phase i) = true → s.lockHolder = some i) ∧
  (∀ t ∈ s.pending, ∃ i : Fin n, s.phase i = .inScope t)

theorem guard_inv_of_reachable (n : ℕ) (s : GuardSysState n)
    (h : GuardReachable n s) : GuardInv s := by
  induction h with
  | init =>
    refine ⟨fun i hi => ?_, fun t ht => ?_⟩
    · simp [registering] at hi
    · simp at ht
  | step hr hstep ih =>
    obtain ⟨ih1, ih2⟩ := ih
    cases hstep with
    | create i hidle hfree =>
      refine ⟨fun j hj => ?_, fun t ht => ?_⟩
      · by_cases hij : j = i
        · rw [hij]
        · simp only [Function.update_noteq hij] at hj
          have h2 := ih1 j hj
          rw [hfree] at h2
          cases h2
      · obtain ⟨j, hji⟩ := ih2 t ht
        have hjne : j ≠ i := fun he => by rw [he, hidle] at hji; cases hji
        exact ⟨j, by simpa [Function.update_noteq hjne] using hji⟩
    | setOrder i t₀ origin target oid hcreated =>
      refine ⟨fun j hj => ?_, fun t ht => ?_⟩
      · by_cases hij : j = i
        · subst hij
          exact ih1 j (by rw [hcreated]; rfl)
        · simp only [Function.update_noteq hij] at hj
          exact ih1 j hj
      · obtain ⟨j, hji⟩ := ih2 t ht
        have hjne : j ≠ i := fun he => by rw [he, hcreated] at hji; cases hji
        exact ⟨j, by simpa [Function.update_noteq hjne] using hji⟩
    | enterOk i t hcreated =>
      refine ⟨fun j hj => ?_, fun t' ht' => ?_⟩
      · by_cases hij : j = i
        · subst hij
          simp only [Function.update_same] at hj
          simp [registering] at hj
        · simp only [Function.update_noteq hij] at hj
          have hji := ih1 j hj
          have hii := ih1 i (by rw [hcreated]; rfl)
          rw [hii] at hji
          cases hji
          exact absurd rfl hij
      · rcases Finset.mem_insert.mp ht' with he | hmem
        · exact ⟨i, by simp [he, Function.update_same]⟩
        · obtain ⟨j, hji⟩ := ih2 t' hmem
          have hjne : j ≠ i := fun he2 => by rw [he2, hcreated] at hji; cases hji
          exact ⟨j, by simpa [Function.update_noteq hjne] using hji⟩
    | enterFail i hcreated =>
      refine ⟨fun j hj => ?_, fun t ht => ?_⟩
      · by_cases hij : j = i
        · subst hij
          simp only [Function.update_same] at hj
          simp [registering] at hj
        · simp only [Function.update_noteq hij] at hj
          have hji := ih1 j hj
          have hii := ih1 i (by rw [hcreated]; rfl)
          rw [hii] at hji
          cases hji
          exact absurd rfl hij
      · obtain ⟨j, hji⟩ := ih2 t ht
        have hjne : j ≠ i := fun he => by rw [he, hcreated] at hji; cases hji
        exact ⟨j, by simpa [Function.update_noteq hjne] using hji⟩
    | exitScope i t hin =>
      refine ⟨fun j hj => ?_, fun t' ht' => ?_⟩
      · by_cases hij : j = i
        · subst hij
          simp only [Function.update_same] at hj
          simp [registering] at hj
        · simp only [Function.update_noteq hij] at hj
          exact ih1 j hj
      · have hmem := Finset.mem_erase.mp ht'
        obtain ⟨j, hji⟩ := ih2 t' hmem.2
        have hjne : j ≠ i := fun he => by
          rw [he, hin] at hji
          exact hmem.1 (by cases hji; rfl)
        exact ⟨j, by simpa [Function.update_noteq hjne] using hji⟩

/-- C1: in every reachable state of the registration protocol, a caller
between guard construction and scope entry holds the submission mutex
(the constructor takes it before anything else and it is held
continuously until scope entry releases it right after the tag is
added), at most one caller is in that registration window at a time
(registrations are totally ordered), and the pending set contains only
tags of callers currently inside their scope. -/
theorem c1_order_guard_registration (n : ℕ) (s : GuardSysState n)
    (h : GuardReachable n s) :
    (∀ i : Fin n, registering (s.phase i) = true → s.lockHolder = some i) ∧
    (∀ i j : Fin n, registering (s.phase i) = true →
      registering (s.phase j) = true → i = j) ∧
    (∀ t ∈ s.pending, ∃ i : Fin n, s.phase i = .inScope t) := by
  obtain ⟨h1, h2⟩ := guard_inv_of_reachable n s h
  refine ⟨h1, fun i j hi hj => ?_, h2⟩
  have hli := h1 i hi
  have hlj := h1 j hj
  rw [hli] at hlj
  cases hlj
  rfl

/-- A concrete two-caller demonstration state: caller 0 created a guard,
set its order, and entered its scope (publishing the tag); caller 1 then
created a guard and holds the submission mutex. -/
def guardDemoState : GuardSysState 2 :=
  { lockHolder := some 1
    pending := insert ("BTCUSDT", 5) ∅
    phase := Function.update (Function.update (Function.update (Function.update
      (fun _ => GuardPhase.idle) 0 (GuardPhase.created none)) 0
      (GuardPhase.created (some ("BTCUSDT", 5)))) 0
      (GuardPhase.inScope ("BTCUSDT", 5))) 1 (GuardPhase.created none) }

theorem guardDemoState_reachable : GuardReachable 2 guardDemoState :=
  GuardReachable.step
    (GuardReachable.step
      (GuardReachable.step
        (GuardReachable.step GuardReachable.init
          (GuardStep.create _ 0 rfl rfl))
        (GuardStep.setOrder _ 0 none "BTC" "USDT" 5 (by decide)))
      (GuardStep.enterOk _ 0 ("BTCUSDT", 5) (by decide)))
    (GuardStep.create _ 1 (by decide) rfl)

/-- Witness for C1 at the demonstration state: the registering caller 1
holds the submission mutex and the one pending tag belongs to a caller
inside its scope. -/
theorem c1_order_guard_registration_witness :
    guardDemoState.lockHolder = some 1 ∧
    ∃ i : Fin 2, guardDemoState.phase i = .inScope ("BTCUSDT", 5) :=
  ⟨(c1_order_guard_registration 2 guardDemoState guardDemoState_reachable).1
      1 (by decide),
   (c1_order_guard_registration 2 guardDemoState guardDemoState_reachable).2.2
      ("BTCUSDT", 5) (by decide)⟩

/-- Phase of a blocking caller of ThreadSafeAsyncLock: idle, holding
_init_lock (inside __enter__ before the cooperative acquisition), or
inside the critical section. -/
inductive BlockPhase : Type where
  | idle
  | gotInit
  | inCrit
deriving DecidableEq

/-- Phase of the single cooperative task using the lock. -/
inductive CoopPhase : Type where
  | cidle
  | cinCrit
deriving DecidableEq

/-- Who holds the asyncio lock: the cooperative task itself or a blocking
thread routing through run_coroutine_threadsafe. -/
inductive AsyncHolder (n : ℕ) : Type where
  | coopTask
  | thread (i : Fin n)
deriving DecidableEq

/-- Global state of a ThreadSafeAsyncLock shared by n blocking callers
and one cooperative task: whether attach_loop has run, who holds the
_init_lock, who holds the _async_lock, and every participant's phase. -/
structure LockSysState (n : ℕ) : Type where
  attached : Bool
  initHolder : Option (Fin n)
  asyncHolder : Option (AsyncHolder n)
  bphase : Fin n → BlockPhase
  cphase : CoopPhase

/-- Transitions of ThreadSafeAsyncLock.  attach_loop runs under
_init_lock (so it needs the mutex free) and creates the asyncio lock
once.  A blocking __enter__ first acquires _init_lock; if no loop is
attached it is already in its critical section, otherwise it must also
acquire the asyncio lock through the attached runner.  A blocking
__exit__ releases the asyncio lock when one exists and then _init_lock.
The cooperative __aenter__ and __aexit__ touch only the asyncio lock and
are only available after attachment. -/
inductive LockStep (n : ℕ) : LockSysState n → LockSysState n → Prop where
  | attach (s : LockSysState n) (hno : s.attached = false)
      (hfree : s.initHolder = none) :
      LockStep n s { s with attached := true }
  | acquireInit (s : LockSysState n) (i : Fin n)
      (hidle : s.bphase i = .idle) (hfree : s.initHolder = none) :
      LockStep n s
        { s with
          initHolder := some i
          bphase := Function.update s.bphase i .gotInit }
  | enterPreAttach (s : LockSysState n) (i : Fin n)
      (hgot : s.bphase i = .gotInit) (hatt : s.attached = false) :
      LockStep n s { s with bphase := Function.update s.bphase i .inCrit }
  | enterPostAttach (s : LockSysState n) (i : Fin n)
      (hgot : s.bphase i = .gotInit) (hatt : s.attached = true)
      (hafree : s.asyncHolder = none) :
      LockStep n s
        { s with
          asyncHolder := some (.thread i)
          bphase := Function.update s.bphase i .inCrit }
  | exitBlocking (s : LockSysState n) (i : Fin n)
      (hin : s.bphase i = .inCrit) :
      LockStep n s
        { s with
          asyncHolder := if s.attached then none else s.asyncHolder
          initHolder := none
          bphase := Function.update s.bphase i .idle }
  | acquireCoop (s : LockSysState n) (hatt : s.attached = true)
      (hc : s.cphase = .cidle) (hafree : s.asyncHolder = none) :
      LockStep n s { s with asyncHolder := some .coopTask, cphase := .cinCrit }
  | exitCoop (s : LockSysState n) (hc : s.cphase = .cinCrit) :
      LockStep n s { s with asyncHolder := none, cphase := .cidle }

/-- States of the lock reachable from construction: not attached, both
underlying locks free, everyone idle. -/
inductive LockReachable (n : ℕ) : LockSysState n → Prop where
  | init : LockReachable n
      { attached := false
        initHolder := none
        asyncHolder := none
        bphase := fun _ => .idle
        cphase := .cidle }
  | step {s s' : LockSysState n} (h : LockReachable n s)
      (hs : LockStep n s s') : LockReachable n s'

/-- The lock invariant: a blocking caller past the _init_lock acquisition
holds the _init_lock; a cooperative critical section holds the asyncio
lock; before attachment the asyncio lock is untouched and the
cooperative side is idle; after attachment a blocking critical section
also holds the asyncio lock. -/
def LockInv {n : ℕ} (s : LockSysState n) : Prop :=
  (∀ i : Fin n, s.bphase i ≠ .idle → s.initHolder = some i) ∧
  (s.cphase = .cinCrit → s.asyncHolder = some .coopTask) ∧
  (s.attached = false → s.asyncHolder = none ∧ s.cphase = .cidle) ∧
  (∀ i : Fin n, s.attached = true → s.bphase i = .inCrit →
    s.asyncHolder = some (.thread i))

theorem lock_inv_of_reachable (n : ℕ) (s : LockSysState n)
    (h : LockReachable n s) : LockInv s := by
  induction h with
  | init =>
    refine ⟨fun i hi => ?_, fun hc => ?_, fun _ => ⟨rfl, rfl⟩, fun i _ hin => ?_⟩
    · exact absurd rfl hi
    · have hc0 : CoopPhase.cidle = .cinCrit := hc
      exact absurd hc0 (by decide)
    · have h0 : BlockPhase.idle = BlockPhase.inCrit := hin
      exact absurd h0 (by decide)
  | step hr hstep ih =>
    obtain ⟨i1, i2, i3, i4⟩ := ih
    rename_i s₀ s₁
    cases hstep with
    | attach hno hfree =>
      refine ⟨fun i hi => i1 i hi, fun hc => i2 hc, fun hatt => ?_,
              fun i _ hin => ?_⟩
      · have hatt0 : (true : Bool) = false := hatt
        exact absurd hatt0 (by decide)
      · have hin0 : s₀.bphase i = .inCrit := hin
        have h2 := i1 i (by rw [hin0]; decide)
        rw [hfree] at h2
        cases h2
    | acquireInit i hidle hfree =>
      refine ⟨fun j hj => ?_, fun hc => i2 hc, fun hatt => i3 hatt,
              fun j hatt hin => ?_⟩
      · have hj0 : Function.update s₀.bphase i BlockPhase.gotInit j ≠ .idle := hj
        by_cases hij : j = i
        · rw [hij]
        · rw [Function.update_noteq hij] at hj0
          have h2 := i1 j hj0
          rw [hfree] at h2
          cases h2
      · have hin0 : Function.update s₀.bphase i BlockPhase.gotInit j = .inCrit := hin
        by_cases hij : j = i
        · subst hij
          rw [Function.update_same] at hin0
          exact absurd hin0 (by decide)
        · rw [Function.update_noteq hij] at hin0
          have h2 := i1 j (by rw [hin0]; decide)
          rw [hfree] at h2
          cases h2
    | enterPreAttach i hgot hatt =>
      refine ⟨fun j hj => ?_, fun hc => i2 hc, fun hatt2 => i3 hatt2,
              fun j hatt2 hin => ?_⟩
      · have hj0 : Function.update s₀.bphase i BlockPhase.inCrit j ≠ .idle := hj
        by_cases hij : j = i
        · subst hij
          exact i1 j (by rw [hgot]; decide)
        · rw [Function.update_noteq hij] at hj0
          exact i1 j hj0
      · have hatt0 : s₀.attached = true := hatt2
        rw [hatt] at hatt0
        cases hatt0
    | enterPostAttach i hgot hatt hafree =>
      refine ⟨fun j hj => ?_, fun hc => ?_, fun hatt2 => ?_, fun j hatt2 hin => ?_⟩
      · have hj0 : Function.update s₀.bphase i BlockPhase.inCrit j ≠ .idle := hj
        by_cases hij : j = i
        · subst hij
          exact i1 j (by rw [hgot]; decide)
        · rw [Function.update_noteq hij] at hj0
          exact i1 j hj0
      · have hc0 : s₀.cphase = .cinCrit := hc
        have h2 := i2 hc0
        rw [hafree] at h2
        cases h2
      · have hatt0 : s₀.attached = false := hatt2
        rw [hatt] at hatt0
        cases hatt0
      · have hin0 : Function.update s₀.bphase i BlockPhase.inCrit j = .inCrit := hin
        by_cases hij : j = i
        · subst hij
          rfl
        · rw [Function.update_noteq hij] at hin0
          have h2 := i4 j hatt hin0
          rw [hafree] at h2
          cases h2
    | exitBlocking i hin =>
      refine ⟨fun j hj => ?_, fun hc => ?_, fun hatt2 => ?_, fun j hatt2 hin2 => ?_⟩
      · have hj0 : Function.update s₀.bphase i BlockPhase.idle j ≠ .idle := hj
        by_cases hij : j = i
        · subst hij
          rw [Function.update_same] at hj0
          exact absurd rfl hj0
        · rw [Function.update_noteq hij] at hj0
          have h2 := i1 j hj0
          have h3 := i1 i (by rw [hin]; decide)
          rw [h3] at h2
          cases h2
          exact absurd rfl hij
      · have hc0 : s₀.cphase = .cinCrit := hc
        have h2 := i2 hc0
        cases hattv : s₀.attached with
        | true =>
          have h3 := i4 i hattv hin
          rw [h3] at h2
          cases h2
        | false =>
          have h4 := (i3 hattv).2
          rw [h4] at hc0
          cases hc0
      · have hatt0 : s₀.attached = false := hatt2
        have h5 := i3 hatt0
        constructor
        · show (if s₀.attached = true then none else s₀.asyncHolder) = none
          rw [if_neg (by rw [hatt0]; decide)]
          exact h5.1
        · exact h5.2
      · have hin0 : Function.update s₀.bphase i BlockPhase.idle j = .inCrit := hin2
        by_cases hij : j = i
        · subst hij
          rw [Function.update_same] at hin0
          exact absurd hin0 (by decide)
        · rw [Function.update_noteq hij] at hin0
          have h2 := i1 j (by rw [hin0]; decide)
          have h3 := i1 i (by rw [hin]; decide)
          rw [h3] at h2
          cases h2
          exact absurd rfl hij
    | acquireCoop hatt hc hafree =>
      refine ⟨fun j hj => i1 j hj, fun _ => rfl, fun hatt2 => ?_,
              fun j hatt2 hin => ?_⟩
      · have hatt0 : s₀.attached = false := hatt2
        rw [hatt] at hatt0
        cases hatt0
      · have hin0 : s₀.bphase j = .inCrit := hin
        have h2 := i4 j hatt hin0
        rw [hafree] at h2
        cases h2
    | exitCoop hc =>
      refine ⟨fun j hj => i1 j hj, fun hc2 => ?_, fun _ => ⟨rfl, rfl⟩,
              fun j hatt2 hin => ?_⟩
      · have hc0 : CoopPhase.cidle = .cinCrit := hc2
        exact absurd hc0 (by decide)
      · have hatt0 : s₀.attached = true := hatt2
        have hin0 : s₀.bphase j = .inCrit := hin
        have h2 := i4 j hatt0 hin0
        have h3 := i2 hc
        rw [h3] at h2
        cases h2

/-- C2: in every reachable state of the ThreadSafeAsyncLock protocol, at
most one critical section is open: two blocking callers are never both
inside, a blocking and the cooperative critical section are never open
together; before attach_loop the asyncio side is untouched and the
cooperative task idle, so a blocking caller acquires and releases with
the thread lock alone (the pre-attachment enter and exit transitions
touch only _init_lock); and after attach_loop a blocking caller inside
its critical section holds both the thread lock and the asyncio lock, so
its release releases both. -/
theorem c2_thread_safe_async_lock (n : ℕ) (s : LockSysState n)
    (h : LockReachable n s) :
    (∀ i j : Fin n, s.bphase i = .inCrit → s.bphase j = .inCrit → i = j) ∧
    (∀ i : Fin n, s.bphase i = .inCrit → s.cphase = .cinCrit → False) ∧
    (s.attached = false → s.asyncHolder = none ∧ s.cphase = .cidle) ∧
    (∀ i : Fin n, s.attached = true → s.bphase i = .inCrit →
      s.initHolder = some i ∧ s.asyncHolder = some (.thread i)) := by
  obtain ⟨i1, i2, i3, i4⟩ := lock_inv_of_reachable n s h
  refine ⟨fun i j hi hj => ?_, fun i hi hcc => ?_, i3, fun i hatt hi => ?_⟩
  · have h1 := i1 i (by rw [hi]; decide)
    have h2 := i1 j (by rw [hj]; decide)
    rw [h1] at h2
    cases h2
    rfl
  · have h2 := i2 hcc
    cases hattv : s.attached with
    | true =>
      have h3 := i4 i hattv hi
      rw [h3] at h2
      cases h2
    | false =>
      have h4 := (i3 hattv).2
      rw [h4] at hcc
      cases hcc
  · exact ⟨i1 i (by rw [hi]; decide), i4 i hatt hi⟩

/-- A concrete one-caller demonstration state: the blocking caller
acquired and released the lock before attachment using only the thread
primitive, then attach_loop ran, and the caller is now inside a
post-attachment critical section holding both locks. -/
def lockDemoState : LockSysState 1 :=
  { attached := true
    initHolder := some 0
    asyncHolder := some (.thread 0)
    bphase := Function.update (Function.update (Function.update (Function.update
      (Function.update (fun _ => BlockPhase.idle) 0 .gotInit) 0 .inCrit) 0 .idle)
      0 .gotInit) 0 .inCrit
    cphase := .cidle }

theorem lockDemoState_reachable : LockReachable 1 lockDemoState :=
  LockReachable.step
    (LockReachable.step
      (LockReachable.step
        (LockReachable.step
          (LockReachable.step
            (LockReachable.step LockReachable.init
              (LockStep.acquireInit _ 0 rfl rfl))
            (LockStep.enterPreAttach _ 0 (by decide) rfl))
          (LockStep.exitBlocking _ 0 (by decide)))
        (LockStep.attach _ (by decide) (by decide)))
      (LockStep.acquireInit _ 0 (by decide) (by decide)))
    (LockStep.enterPostAttach _ 0 (by decide) (by decide) (by decide))

/-- Witness for C2 at the demonstration state: the caller inside a
post-attachment critical section holds both the thread lock and the
asyncio lock. -/
theorem c2_thread_safe_async_lock_witness :
    lockDemoState.initHolder = some 0 ∧
    lockDemoState.asyncHolder = some (.thread 0) :=
  (c2_thread_safe_async_lock 1 lockDemoState lockDemoState_reachable).2.2.2
    0 rfl (by decide)
